import Mathlib

/-!
# Verification of the rss-reader normalization and merge engine

Shallow embedding of the repository's two implementations:

* `src/src/main.js` — the JS implementation: loading the persisted store,
  normalizing parsed RSS/Atom documents into the internal feed format,
  merging normalized feeds into the store, and serializing the store.
* `src/unnamed/part_000` — the Go implementation: in particular the
  RSS-profile date resolver `parseRssDateOrNow` built on Go's `time.Parse`.

JavaScript `Map` objects are embedded as association lists
(`List (Key × α)`): `Map.get` finds the first entry with the key,
`Map.set` replaces the value in place at an existing key (keeping the
insertion order) and appends a fresh entry otherwise, exactly as a JS
`Map` iterates in insertion order.  JS `Date` values are embedded as
`Int` (milliseconds since the epoch); `Date` comparison via `<`/`>` is
numeric comparison of those instants.  External collaborators of the
engine (`sanitize-html`, the WHATWG `URL` parser, JS `Date`-string
parsing) are parameters of the normalizers, bundled in `Env`; a JS
expression that can throw is embedded in `Except Unit`.
-/

namespace RssReader

/-- A JS `Map` key.  Feed and article ids are strings but may be the JS
value `undefined` (e.g. an article with neither `guid` nor `link`), which
is a legitimate `Map` key; hence `Option String`. -/
abbrev Key := Option String

/-- A canonical article, `main.js` lines 130–136 / 197–203: fields default
to `undefined` (dates to "now"). -/
structure Article where
  title : Option String
  link : Option String
  id : Option String
  published : Int
  updated : Int
deriving DecidableEq, Repr

/-- A freshly normalized feed, `main.js` lines 99–106: its `articles`
field is the plain array produced by `rss.item.map` / `atom.entry.map`. -/
structure NormFeed where
  title : Option String
  description : Option String
  link : Option String
  id : Option String
  articles : List Article
  updated : Int
deriving DecidableEq, Repr

/-- A feed held in the store, `main.js` lines 44–51 / 252–259: its
`articles` field is a JS `Map` from article id to article. -/
structure StoredFeed where
  title : Option String
  description : Option String
  link : Option String
  id : Option String
  articles : List (Key × Article)
  updated : Int
deriving DecidableEq, Repr

/-- The store: the JS `Map` from feed id to feed (`main.js` line 27). -/
abbrev Store := List (Key × StoredFeed)

/-- JS `Map.prototype.get`: the value at the first (only) entry whose key
matches. -/
def mapGet {α : Type} (l : List (Key × α)) (k : Key) : Option α :=
  match l with
  | [] => none
  | (k', v) :: t => if k' = k then some v else mapGet t k

/-- JS `Map.prototype.set`: replace the value at an existing key in place
(keeping insertion order), else append a fresh entry. -/
def mapSet {α : Type} (l : List (Key × α)) (k : Key) (v : α) : List (Key × α) :=
  match l with
  | [] => [(k, v)]
  | (k', v') :: t => if k' = k then (k', v) :: t else (k', v') :: mapSet t k v

/-- One iteration of the article loop, `main.js` lines 266–271:
`if (!article || newArticle.updated > article.updated)
   feed.articles.set(newArticle.id, newArticle)`. -/
def mergeStep (acc : List (Key × Article)) (na : Article) : List (Key × Article) :=
  match mapGet acc na.id with
  | none => mapSet acc na.id na
  | some a => if a.updated < na.updated then mapSet acc na.id na else acc

/-- The article loop of the merge, `main.js` lines 266–271, run over the
incoming feed's article array. -/
def mergeArticles (m : List (Key × Article)) (incoming : List Article) :
    List (Key × Article) :=
  incoming.foldl mergeStep m

/-- The merge engine for one normalized feed, `main.js` lines 249–272:
insert a fresh feed (metadata copied, empty article map) when the id is
absent, then run the article loop against the (fresh or existing) feed's
article map.  In JS the feed object is mutated in place; the final map
state is the in-place replacement embedded here. -/
def mergeFeed (s : Store) (nf : NormFeed) : Store :=
  match mapGet s nf.id with
  | none =>
    mapSet s nf.id
      { title := nf.title, description := nf.description, link := nf.link,
        id := nf.id, articles := mergeArticles [] nf.articles,
        updated := nf.updated }
  | some f => mapSet s nf.id { f with articles := mergeArticles f.articles nf.articles }

/-- The merge loop over all feeds of one ingestion cycle,
`main.js` line 249 (`for (const newFeed of newFeeds)`). -/
def updateStore (s : Store) (nfs : List NormFeed) : Store :=
  nfs.foldl mergeFeed s

/-! ## Association-list (JS `Map`) lemmas -/

theorem mapGet_set_self {α : Type} (l : List (Key × α)) (k : Key) (v : α) :
    mapGet (mapSet l k v) k = some v := by
  induction l with
  | nil => simp [mapGet, mapSet]
  | cons p t ih =>
    obtain ⟨k', v'⟩ := p
    by_cases h : k' = k <;> simp [mapGet, mapSet, h, ih]

theorem mapGet_set_ne {α : Type} (l : List (Key × α)) (k k' : Key) (v : α)
    (h : k' ≠ k) : mapGet (mapSet l k v) k' = mapGet l k' := by
  induction l with
  | nil => simp [mapGet, mapSet, Ne.symm h]
  | cons p t ih =>
    obtain ⟨k₀, v₀⟩ := p
    by_cases h0 : k₀ = k
    · subst h0
      simp [mapGet, mapSet, Ne.symm h]
    · simp only [mapSet, if_neg h0]
      simp [mapGet, ih]

theorem mapSet_eq_of_get {α : Type} (l : List (Key × α)) (k : Key) (v : α)
    (h : mapGet l k = some v) : mapSet l k v = l := by
  induction l with
  | nil => simp [mapGet] at h
  | cons p t ih =>
    obtain ⟨k', v'⟩ := p
    by_cases h0 : k' = k
    · simp only [mapGet, if_pos h0] at h
      obtain rfl : v' = v := by injection h
      simp [mapSet, h0]
    · simp only [mapGet, if_neg h0] at h
      simp [mapSet, h0, ih h]

theorem mapSet_append_of_get_none {α : Type} (l : List (Key × α)) (k : Key) (v : α)
    (h : mapGet l k = none) : mapSet l k v = l ++ [(k, v)] := by
  induction l with
  | nil => simp [mapSet]
  | cons p t ih =>
    obtain ⟨k', v'⟩ := p
    by_cases h0 : k' = k
    · simp [mapGet, h0] at h
    · simp only [mapGet, if_neg h0] at h
      simp [mapSet, h0, ih h]

theorem mem_mapSet {α : Type} (l : List (Key × α)) (k : Key) (v : α) (p : Key × α)
    (h : p ∈ mapSet l k v) : p ∈ l ∨ p = (k, v) := by
  induction l with
  | nil => simpa [mapSet] using h
  | cons q t ih =>
    obtain ⟨k', v'⟩ := q
    by_cases h0 : k' = k
    · simp only [mapSet, if_pos h0, List.mem_cons] at h
      rcases h with h | h
      · right; rw [h, h0]
      · left; exact List.mem_cons_of_mem _ h
    · simp only [mapSet, if_neg h0, List.mem_cons] at h
      rcases h with h | h
      · left; exact h ▸ List.mem_cons_self _ _
      · rcases ih h with h' | h'
        · left; exact List.mem_cons_of_mem _ h'
        · right; exact h'

/-! ## Merge lemmas -/

theorem mergeArticles_cons (m : List (Key × Article)) (c : Article) (t : List Article) :
    mergeArticles m (c :: t) = mergeArticles (mergeStep m c) t := rfl

theorem mergeStep_get_ne (m : List (Key × Article)) (na : Article) (k : Key)
    (h : k ≠ na.id) : mapGet (mergeStep m na) k = mapGet m k := by
  cases hg : mapGet m na.id with
  | none => simp only [mergeStep, hg]; exact mapGet_set_ne m na.id k na h
  | some a =>
    by_cases hu : a.updated < na.updated
    · simp only [mergeStep, hg, if_pos hu]; exact mapGet_set_ne m na.id k na h
    · simp only [mergeStep, hg, if_neg hu]

theorem mergeStep_get_mono (m : List (Key × Article)) (na : Article) (k : Key)
    (a : Article) (h : mapGet m k = some a) :
    ∃ b, mapGet (mergeStep m na) k = some b ∧ a.updated ≤ b.updated ∧
      (b = a ∨ b.id = k) := by
  by_cases hk : k = na.id
  · subst hk
    by_cases hu : a.updated < na.updated
    · refine ⟨na, ?_, le_of_lt hu, Or.inr rfl⟩
      simp only [mergeStep, h, if_pos hu]
      exact mapGet_set_self m na.id na
    · exact ⟨a, by simp only [mergeStep, h, if_neg hu], le_refl _, Or.inl rfl⟩
  · rw [mergeStep_get_ne m na k hk]
    exact ⟨a, h, le_refl _, Or.inl rfl⟩

theorem mergeArticles_get_mono (L : List Article) (m : List (Key × Article)) (k : Key)
    (a : Article) (h : mapGet m k = some a) :
    ∃ b, mapGet (mergeArticles m L) k = some b ∧ a.updated ≤ b.updated ∧
      (b = a ∨ b.id = k) := by
  induction L generalizing m a with
  | nil => exact ⟨a, h, le_refl _, Or.inl rfl⟩
  | cons c t ih =>
    obtain ⟨b, hb, hab, hidb⟩ := mergeStep_get_mono m c k a h
    obtain ⟨d, hd, hbd, hidd⟩ := ih (mergeStep m c) b hb
    rw [mergeArticles_cons]
    refine ⟨d, hd, le_trans hab hbd, ?_⟩
    rcases hidd with rfl | hidd
    · rcases hidb with rfl | hidb
      · exact Or.inl rfl
      · exact Or.inr hidb
    · exact Or.inr hidd

theorem mergeStep_get_self (m : List (Key × Article)) (na : Article) :
    ∃ b, mapGet (mergeStep m na) na.id = some b ∧ na.updated ≤ b.updated := by
  cases hg : mapGet m na.id with
  | none =>
    refine ⟨na, ?_, le_refl _⟩
    simp only [mergeStep, hg]
    exact mapGet_set_self m na.id na
  | some a =>
    by_cases hu : a.updated < na.updated
    · refine ⟨na, ?_, le_refl _⟩
      simp only [mergeStep, hg, if_pos hu]
      exact mapGet_set_self m na.id na
    · exact ⟨a, by simp only [mergeStep, hg, if_neg hu], le_of_not_lt hu⟩

theorem mergeArticles_get_ge (L : List Article) (m : List (Key × Article))
    (na : Article) (hmem : na ∈ L) :
    ∃ b, mapGet (mergeArticles m L) na.id = some b ∧ na.updated ≤ b.updated := by
  induction L generalizing m with
  | nil => cases hmem
  | cons c t ih =>
    rw [mergeArticles_cons]
    rcases List.mem_cons.mp hmem with rfl | hmem'
    · obtain ⟨b, hb, hge⟩ := mergeStep_get_self m na
      obtain ⟨d, hd, hbd, _⟩ := mergeArticles_get_mono t (mergeStep m na) na.id b hb
      exact ⟨d, hd, le_trans hge hbd⟩
    · exact ih (mergeStep m c) hmem'

theorem mergeArticles_eq_of_ge (L : List Article) (m : List (Key × Article))
    (h : ∀ na ∈ L, ∃ a, mapGet m na.id = some a ∧ na.updated ≤ a.updated) :
    mergeArticles m L = m := by
  induction L with
  | nil => rfl
  | cons c t ih =>
    obtain ⟨a, ha, hge⟩ := h c (List.mem_cons_self c t)
    have hstep : mergeStep m c = m := by
      simp only [mergeStep, ha, if_neg (not_lt.mpr hge)]
    rw [mergeArticles_cons, hstep]
    exact ih (fun na hna => h na (List.mem_cons_of_mem _ hna))

theorem mergeArticles_idem (m : List (Key × Article)) (L : List Article) :
    mergeArticles (mergeArticles m L) L = mergeArticles m L :=
  mergeArticles_eq_of_ge L _ (fun na hna => mergeArticles_get_ge L m na hna)

theorem mergeArticles_get_not_mem (L : List Article) (m : List (Key × Article))
    (k : Key) (h : ∀ c ∈ L, c.id ≠ k) :
    mapGet (mergeArticles m L) k = mapGet m k := by
  induction L generalizing m with
  | nil => rfl
  | cons c t ih =>
    rw [mergeArticles_cons, ih _ (fun d hd => h d (List.mem_cons_of_mem _ hd)),
      mergeStep_get_ne m c k (Ne.symm (h c (List.mem_cons_self c t)))]

theorem mergeArticles_single (L : List Article) (m : List (Key × Article))
    (x : Key) (a b : Article)
    (ha : mapGet m x = some a)
    (hb : L.filter (fun c => decide (c.id = x)) = [b]) :
    mapGet (mergeArticles m L) x = some (if a.updated < b.updated then b else a) := by
  induction L generalizing m a with
  | nil => simp at hb
  | cons c t ih =>
    rw [mergeArticles_cons]
    by_cases hc : c.id = x
    · rw [List.filter_cons_of_pos (by simp [hc])] at hb
      injection hb with h1 h2
      subst h1
      have hnone : ∀ d ∈ t, d.id ≠ x := by
        intro d hd hdx
        have hmem : d ∈ t.filter (fun c => decide (c.id = x)) :=
          List.mem_filter.mpr ⟨hd, by simp [hdx]⟩
        rw [h2] at hmem
        cases hmem
      rw [mergeArticles_get_not_mem t _ x hnone]
      have hga : mapGet m c.id = some a := by rw [hc]; exact ha
      have hstep : mergeStep m c = if a.updated < c.updated then mapSet m c.id c else m := by
        simp only [mergeStep, hga]
      rw [hstep]
      by_cases hu : a.updated < c.updated
      · rw [if_pos hu, if_pos hu, hc]
        exact mapGet_set_self m x c
      · rw [if_neg hu, if_neg hu]
        exact ha
    · rw [List.filter_cons_of_neg (by simp [hc])] at hb
      have hget : mapGet (mergeStep m c) x = some a := by
        rw [mergeStep_get_ne m c x (Ne.symm hc)]
        exact ha
      exact ih _ _ hget hb

theorem mergeFeed_of_get_none (s : Store) (nf : NormFeed)
    (h : mapGet s nf.id = none) :
    mergeFeed s nf = mapSet s nf.id
      { title := nf.title, description := nf.description, link := nf.link,
        id := nf.id, articles := mergeArticles [] nf.articles,
        updated := nf.updated } := by
  simp only [mergeFeed, h]

theorem mergeFeed_of_get_some (s : Store) (nf : NormFeed) (f : StoredFeed)
    (h : mapGet s nf.id = some f) :
    mergeFeed s nf =
      mapSet s nf.id { f with articles := mergeArticles f.articles nf.articles } := by
  simp only [mergeFeed, h]

/-! ## Claim theorems: the merge engine -/

/-- C1 (confirmed): Merge is idempotent: for every Store `S` and every normalized
Feed `F`, merging `F` into `S` twice in a row yields the same Store as
merging it once — the second merge produces no observable change because
the article-replacement condition (`main.js` line 268) requires a strictly
greater `updated` timestamp. -/
theorem merge_idempotent (s : Store) (nf : NormFeed) :
    mergeFeed (mergeFeed s nf) nf = mergeFeed s nf := by
  cases hg : mapGet s nf.id with
  | none =>
    have h2 : mapGet (mergeFeed s nf) nf.id = some
        { title := nf.title, description := nf.description, link := nf.link,
          id := nf.id, articles := mergeArticles [] nf.articles,
          updated := nf.updated } := by
      rw [mergeFeed_of_get_none s nf hg]
      exact mapGet_set_self _ _ _
    rw [mergeFeed_of_get_some (mergeFeed s nf) nf _ h2]
    simp only [mergeArticles_idem]
    exact mapSet_eq_of_get _ _ _ h2
  | some f =>
    have h2 : mapGet (mergeFeed s nf) nf.id =
        some { f with articles := mergeArticles f.articles nf.articles } := by
      rw [mergeFeed_of_get_some s nf f hg]
      exact mapGet_set_self _ _ _
    rw [mergeFeed_of_get_some (mergeFeed s nf) nf _ h2]
    simp only [mergeArticles_idem]
    exact mapSet_eq_of_get _ _ _ h2

/-- C3 (confirmed): Monotonic replacement: if the stored feed holds article `a`
under id `x` and the incoming feed's article array holds exactly one
article `b` with id `x`, then after the merge the feed holds `b` iff
`b.updated > a.updated` (`t2 > t1`), and otherwise holds `a` unchanged. -/
theorem merge_monotonic_replacement (s : Store) (nf : NormFeed) (f : StoredFeed)
    (a b : Article) (x : Key)
    (hf : mapGet s nf.id = some f)
    (ha : mapGet f.articles x = some a)
    (hb : nf.articles.filter (fun c => decide (c.id = x)) = [b]) :
    ∃ f', mapGet (mergeFeed s nf) nf.id = some f' ∧
      mapGet f'.articles x = some (if a.updated < b.updated then b else a) := by
  refine ⟨{ f with articles := mergeArticles f.articles nf.articles }, ?_, ?_⟩
  · simp only [mergeFeed, hf]
    exact mapGet_set_self _ _ _
  · exact mergeArticles_single nf.articles f.articles x a b ha hb

/-- C4 (confirmed): Merge never deletes: every feed id present in the Store before
`mergeFeed` is still present afterwards (with the same feed `id` field),
and every article id present in a stored feed is still present in that
feed afterwards — its article is either kept unchanged or replaced by an
article whose `id` field equals that key. -/
theorem merge_no_deletion (s : Store) (nf : NormFeed) (k : Key) (f : StoredFeed)
    (hf : mapGet s k = some f) :
    ∃ f', mapGet (mergeFeed s nf) k = some f' ∧ f'.id = f.id ∧
      ∀ x a, mapGet f.articles x = some a →
        ∃ a', mapGet f'.articles x = some a' ∧ (a' = a ∨ a'.id = x) := by
  by_cases hk : k = nf.id
  · subst hk
    refine ⟨{ f with articles := mergeArticles f.articles nf.articles }, ?_, rfl, ?_⟩
    · simp only [mergeFeed, hf]
      exact mapGet_set_self _ _ _
    · intro x a hxa
      obtain ⟨b, hb, _, hid⟩ := mergeArticles_get_mono nf.articles f.articles x a hxa
      exact ⟨b, hb, hid⟩
  · have hml : mapGet (mergeFeed s nf) k = mapGet s k := by
      cases hg : mapGet s nf.id with
      | none => simp only [mergeFeed, hg]; exact mapGet_set_ne _ _ _ _ hk
      | some f0 => simp only [mergeFeed, hg]; exact mapGet_set_ne _ _ _ _ hk
    refine ⟨f, by rw [hml, hf], rfl, ?_⟩
    intro x a hxa
    exact ⟨a, hxa, Or.inl rfl⟩

/-- C8 (confirmed): Merge frame condition: when the Store already holds a feed with
the incoming feed's id, the merge leaves that feed's `title`,
`description`, `link`, `id` and `updated` fields exactly as they were —
only its article map changes (to the merged article map). -/
theorem merge_frame (s : Store) (nf : NormFeed) (f : StoredFeed)
    (hf : mapGet s nf.id = some f) :
    ∃ f', mapGet (mergeFeed s nf) nf.id = some f' ∧
      f'.title = f.title ∧ f'.description = f.description ∧
      f'.link = f.link ∧ f'.id = f.id ∧ f'.updated = f.updated ∧
      f'.articles = mergeArticles f.articles nf.articles := by
  refine ⟨{ f with articles := mergeArticles f.articles nf.articles },
    ?_, rfl, rfl, rfl, rfl, rfl, rfl⟩
  simp only [mergeFeed, hf]
  exact mapGet_set_self _ _ _

/-! ## Persistence (`main.js` lines 27–54 and 277–287)

The JSON file is an array of feed records, each with an `articles` array.
`JSON.stringify` serializes a JS `Date` as an ISO-8601 string with
millisecond precision and `new Date(isoString)` re-parses it to the same
instant, so serializing a timestamp and re-parsing it is the identity on
the embedded `Int` instants. -/

/-- A serialized article record as written by `main.js` lines 283
(`[...feed.articles.values()]`) inside `JSON.stringify`. -/
structure RawArticle where
  title : Option String
  link : Option String
  id : Option String
  published : Int
  updated : Int
deriving DecidableEq, Repr

/-- A serialized feed record, `main.js` lines 278–285. -/
structure RawFeed where
  title : Option String
  description : Option String
  link : Option String
  id : Option String
  articles : List RawArticle
  updated : Int
deriving DecidableEq, Repr

/-- Serialization of one article (all five fields written out). -/
def saveArticle (a : Article) : RawArticle :=
  { title := a.title, link := a.link, id := a.id,
    published := a.published, updated := a.updated }

/-- Serialization of one stored feed, `main.js` lines 278–285: the article
map's values in insertion order. -/
def saveFeed (f : StoredFeed) : RawFeed :=
  { title := f.title, description := f.description, link := f.link, id := f.id,
    articles := f.articles.map (fun p => saveArticle p.2), updated := f.updated }

/-- Serialization of the whole store, `main.js` lines 277–287. -/
def save (s : Store) : List RawFeed :=
  s.map (fun p => saveFeed p.2)

/-- Deserialization of one article, `main.js` lines 34–40.  Line 39 reads
`new Date(rawArticle.published)` into the `updated` field (sic). -/
def loadArticle (r : RawArticle) : Article :=
  { title := r.title, link := r.link, id := r.id,
    published := r.published, updated := r.published }

/-- Deserialization of one feed, `main.js` lines 32–51:
`articles.set(article.id, article)` over the raw article array. -/
def loadFeed (r : RawFeed) : StoredFeed :=
  { title := r.title, description := r.description, link := r.link, id := r.id,
    articles := r.articles.foldl
      (fun m ra => mapSet m (loadArticle ra).id (loadArticle ra)) [],
    updated := r.updated }

/-- Deserialization of the store, `main.js` lines 27–54:
`feeds.set(feed.id, feed)` over the raw feed array. -/
def load (rs : List RawFeed) : Store :=
  rs.foldl (fun s rf => mapSet s (loadFeed rf).id (loadFeed rf)) []

/-- A one-feed, one-article store whose article has
`published = 0`, `updated = 1`. -/
def storeC2 : Store :=
  [(some "f",
    { title := none, description := none, link := none, id := some "f",
      articles := [(some "a",
        { title := none, link := none, id := some "a",
          published := 0, updated := 1 })],
      updated := 4 })]

/-- C2 (code bug): persistence does **not** round-trip.  `main.js` line 39
loads `new Date(rawArticle.published)` into the article's `updated` field,
so for the store `storeC2`, whose single article has `published = 0` and
`updated = 1`, `load (save storeC2)` returns the store with the article's
`updated` collapsed to `0` — not `storeC2`.  The serializer (line 284)
writes the true `updated` value, which the loader then ignores: a slip, and
it contradicts the spec's exact round-trip requirement. -/
theorem load_save_not_roundtrip :
    load (save storeC2) ≠ storeC2 ∧
    load (save storeC2) =
      [(some "f",
        { title := none, description := none, link := none, id := some "f",
          articles := [(some "a",
            { title := none, link := none, id := some "a",
              published := 0, updated := 0 })],
          updated := 4 })] := by
  constructor
  · decide
  · decide

/-! ## Store key coherence (C10) -/

/-- Every key of the store equals the `id` field of the feed it maps to,
and every key of each feed's article map equals the `id` field of the
article it maps to. -/
def storeCoherent (s : Store) : Prop :=
  ∀ p ∈ s, p.2.id = p.1 ∧ ∀ q ∈ p.2.articles, q.2.id = q.1

instance (s : Store) : Decidable (storeCoherent s) := by
  unfold storeCoherent
  infer_instance

theorem mem_of_mapGet {α : Type} (l : List (Key × α)) (k : Key) (v : α)
    (h : mapGet l k = some v) : (k, v) ∈ l := by
  induction l with
  | nil => cases h
  | cons p t ih =>
    obtain ⟨k', v'⟩ := p
    by_cases h0 : k' = k
    · subst h0
      simp only [mapGet, if_pos rfl] at h
      obtain rfl : v' = v := by injection h
      exact List.mem_cons_self _ _
    · simp only [mapGet, if_neg h0] at h
      exact List.mem_cons_of_mem _ (ih h)

theorem mergeStep_coherent (m : List (Key × Article))
    (h : ∀ q ∈ m, q.2.id = q.1) (na : Article) :
    ∀ q ∈ mergeStep m na, q.2.id = q.1 := by
  intro q hq
  have hq' : q ∈ m ∨ q = (na.id, na) := by
    cases hg : mapGet m na.id with
    | none =>
      simp only [mergeStep, hg] at hq
      exact mem_mapSet m na.id na q hq
    | some a =>
      by_cases hu : a.updated < na.updated
      · simp only [mergeStep, hg, if_pos hu] at hq
        exact mem_mapSet m na.id na q hq
      · simp only [mergeStep, hg, if_neg hu] at hq
        exact Or.inl hq
  rcases hq' with h1 | rfl
  · exact h q h1
  · rfl

theorem mergeArticles_coherent (L : List Article) (m : List (Key × Article))
    (h : ∀ q ∈ m, q.2.id = q.1) :
    ∀ q ∈ mergeArticles m L, q.2.id = q.1 := by
  induction L generalizing m with
  | nil => exact h
  | cons c t ih =>
    rw [mergeArticles_cons]
    exact ih _ (mergeStep_coherent m h c)

theorem mergeFeed_coherent (s : Store) (nf : NormFeed)
    (h : storeCoherent s) : storeCoherent (mergeFeed s nf) := by
  cases hg : mapGet s nf.id with
  | none =>
    rw [mergeFeed_of_get_none s nf hg]
    intro p hp
    rcases mem_mapSet _ _ _ p hp with h1 | rfl
    · exact h p h1
    · exact ⟨rfl, mergeArticles_coherent nf.articles []
        (fun q hq => absurd hq (List.not_mem_nil q))⟩
  | some f =>
    rw [mergeFeed_of_get_some s nf f hg]
    intro p hp
    rcases mem_mapSet _ _ _ p hp with h1 | rfl
    · exact h p h1
    · have hmem := mem_of_mapGet s nf.id f hg
      obtain ⟨hid, harts⟩ := h (nf.id, f) hmem
      exact ⟨hid, mergeArticles_coherent nf.articles f.articles harts⟩

theorem loadArticles_coherent (ras : List RawArticle) (m : List (Key × Article))
    (h : ∀ q ∈ m, q.2.id = q.1) :
    ∀ q ∈ ras.foldl (fun m ra => mapSet m (loadArticle ra).id (loadArticle ra)) m,
      q.2.id = q.1 := by
  induction ras generalizing m with
  | nil => exact h
  | cons ra t ih =>
    refine ih _ ?_
    intro q hq
    rcases mem_mapSet _ _ _ q hq with h1 | rfl
    · exact h q h1
    · rfl

theorem loadFeed_coherent (r : RawFeed) :
    ∀ q ∈ (loadFeed r).articles, q.2.id = q.1 :=
  loadArticles_coherent r.articles [] (fun q hq => absurd hq (List.not_mem_nil q))

theorem load_coherent_aux (rs : List RawFeed) (s : Store) (h : storeCoherent s) :
    storeCoherent (rs.foldl (fun s rf => mapSet s (loadFeed rf).id (loadFeed rf)) s) := by
  induction rs generalizing s with
  | nil => exact h
  | cons rf t ih =>
    refine ih _ ?_
    intro p hp
    rcases mem_mapSet _ _ _ p hp with h1 | rfl
    · exact h p h1
    · exact ⟨rfl, loadFeed_coherent rf⟩

/-- C10 (confirmed): store key coherence.  Every key of the store map
equals the `id` field of the feed it maps to, and every key of each
feed's article map equals the `id` field of the article it maps to; both
loading a persisted store (for any raw feed list) and merging a
normalized feed preserve this correspondence. -/
theorem store_key_coherence :
    (∀ rs : List RawFeed, storeCoherent (load rs)) ∧
    (∀ (s : Store) (nf : NormFeed), storeCoherent s → storeCoherent (mergeFeed s nf)) :=
  ⟨fun rs => load_coherent_aux rs [] (fun p hp => absurd hp (List.not_mem_nil p)),
   fun s nf h => mergeFeed_coherent s nf h⟩

/-! ## Witness data -/

/-- Article stored in the witness store under id `"a"`. -/
def artW : Article :=
  { title := none, link := none, id := some "a", published := 1, updated := 2 }

/-- Incoming witness article with the same id `"a"` and a newer `updated`. -/
def artW2 : Article :=
  { title := some "x", link := none, id := some "a", published := 3, updated := 7 }

/-- Witness stored feed under id `"u"`. -/
def feedW : StoredFeed :=
  { title := some "t", description := none, link := some "l", id := some "u",
    articles := [(some "a", artW)], updated := 5 }

/-- Witness incoming normalized feed with the same id `"u"`. -/
def nfW : NormFeed :=
  { title := some "t2", description := none, link := none, id := some "u",
    articles := [artW2], updated := 9 }

/-- Witness store holding `feedW`. -/
def storeW : Store := [(some "u", feedW)]

/-- Witness for C3 at a concrete store and feed. -/
theorem merge_monotonic_replacement_witness :
    ∃ f', mapGet (mergeFeed storeW nfW) nfW.id = some f' ∧
      mapGet f'.articles (some "a") =
        some (if artW.updated < artW2.updated then artW2 else artW) :=
  merge_monotonic_replacement storeW nfW feedW artW artW2 (some "a")
    (by decide) (by decide) (by decide)

/-- Witness for C4 at a concrete store and feed. -/
theorem merge_no_deletion_witness :
    ∃ f', mapGet (mergeFeed storeW nfW) (some "u") = some f' ∧ f'.id = feedW.id ∧
      ∀ x a, mapGet feedW.articles x = some a →
        ∃ a', mapGet f'.articles x = some a' ∧ (a' = a ∨ a'.id = x) :=
  merge_no_deletion storeW nfW (some "u") feedW (by decide)

/-- Witness for C8 at a concrete store and feed. -/
theorem merge_frame_witness :
    ∃ f', mapGet (mergeFeed storeW nfW) nfW.id = some f' ∧
      f'.title = feedW.title ∧ f'.description = feedW.description ∧
      f'.link = feedW.link ∧ f'.id = feedW.id ∧ f'.updated = feedW.updated ∧
      f'.articles = mergeArticles feedW.articles nfW.articles :=
  merge_frame storeW nfW feedW (by decide)

/-- Witness for C10 at a concrete coherent store. -/
theorem store_key_coherence_witness :
    storeCoherent (mergeFeed storeW nfW) :=
  store_key_coherence.2 storeW nfW (by decide)

/-! ## Parsed XML documents (`fast-xml-parser` output shape) and the normalizers

The parser is configured (`main.js` lines 80–94) with
`alwaysCreateTextNode` and with `rss.channel.item`, `feed.entry` and
`feed.entry.link` forced to arrays.  A present element is an object whose
`"#text"` property may still be `undefined`; an absent element is
`undefined` (so e.g. `rss.item.map` throws when a channel has no items).
`feed.link` is *not* in the array list: a single `<link>` is an object
(on which `.find` throws), repeated `<link>`s are an array. -/

/-- A parsed XML element: its `"#text"` node. -/
structure Elem where
  text : Option String
deriving DecidableEq, Repr

/-- A parsed `<item>` of an RSS channel. -/
structure RssItem where
  title : Option Elem
  link : Option Elem
  guid : Option Elem
  pubDate : Option Elem
deriving DecidableEq, Repr

/-- A parsed `rss.channel`. -/
structure RssChannel where
  title : Option Elem
  description : Option Elem
  link : Option Elem
  lastBuildDate : Option Elem
  pubDate : Option Elem
  item : Option (List RssItem)
deriving DecidableEq, Repr

/-- A parsed Atom `<link>` element: `"@_rel"`, `"@_href"`, `"#text"`. -/
structure AtomLinkNode where
  rel : Option String
  href : Option String
  text : Option String
deriving DecidableEq, Repr

/-- The `feed.link` property: absent, a single object, or an array. -/
inductive AtomFeedLinks where
  | absent
  | single (n : AtomLinkNode)
  | many (ns : List AtomLinkNode)
deriving DecidableEq, Repr

/-- A parsed Atom `<entry>`; `feed.entry.link` is always an array when
present. -/
structure AtomEntryNode where
  title : Option Elem
  link : Option (List AtomLinkNode)
  id : Option Elem
  published : Option Elem
  updated : Option Elem
deriving DecidableEq, Repr

/-- A parsed Atom `feed` document. -/
structure AtomFeedDoc where
  title : Option Elem
  subtitle : Option Elem
  link : AtomFeedLinks
  id : Option Elem
  updated : Option Elem
  entry : Option (List AtomEntryNode)
deriving DecidableEq, Repr

/-- A parsed document, classified by its root property as in `main.js`
lines 111 (`xmlFeed.rss`) and 171 (`xmlFeed.feed`); `other` is any
well-formed document with neither root. -/
inductive ParsedXml where
  | rssDoc (ch : RssChannel)
  | atomDoc (a : AtomFeedDoc)
  | other
deriving DecidableEq, Repr

/-- The external collaborators of the normalizers, as the spec's §6
external interfaces: `sanitize` is `sanitize-html`, `parseUrl` is the
WHATWG `URL` constructor (`none` = it throws) returning `.href`, `jsDate`
is `new Date(x)` on a string or `undefined` (total — an invalid date is
just some `Int` stand-in for NaN), and `now` is the instant `new Date()`
returns during this normalization. -/
structure Env where
  sanitize : String → String
  parseUrl : String → Option String
  jsDate : Option String → Int
  now : Int

/-- `(new URL(x)).href` where `x` may be `undefined`: throws on
`undefined` and on a parse failure. -/
def urlHref (env : Env) (x : Option String) : Except Unit String :=
  match x with
  | none => .error ()
  | some s =>
    match env.parseUrl s with
    | none => .error ()
    | some h => .ok h

/-- JS truthiness of `e && e["#text"]`: the element exists and its text
is a nonempty string (returns that string). -/
def truthyText (e : Option Elem) : Option String :=
  match e with
  | none => none
  | some el =>
    match el.text with
    | none => none
    | some s => if s = "" then none else some s

/-- `sanitizeHtml(e["#text"] ?? "")`. -/
def sanitizedText (env : Env) (e : Elem) : String :=
  env.sanitize (e.text.getD "")

/-- `Array.prototype.map` with a callback that may throw: the first throw
aborts the whole map. -/
def mapExcept {α β : Type} (f : α → Except Unit β) : List α → Except Unit (List β)
  | [] => .ok []
  | x :: xs =>
    match f x with
    | .error e => .error e
    | .ok y =>
      match mapExcept f xs with
      | .error e => .error e
      | .ok ys => .ok (y :: ys)

/-- The default feed object, `main.js` lines 99–106. -/
def defNormFeed (now : Int) : NormFeed :=
  { title := none, description := none, link := none, id := none,
    articles := [], updated := now }

/-- Feed link/id resolution for RSS, `main.js` lines 122–126:
`if (rss.link && rss.link["#text"]) feed.link = feed.id = new URL(...).href
 else feed.link = feed.id = url`. -/
def rssLinkId (env : Env) (url : String) (lnk : Option Elem) : Except Unit String :=
  match truthyText lnk with
  | some s => urlHref env (some s)
  | none => .ok url

/-- Feed `updated` resolution for RSS, `main.js` lines 166–170 (element
presence only, no text truthiness; `new Date(undefined)` is an invalid
date, not a throw). -/
def rssUpdated (env : Env) (ch : RssChannel) : Int :=
  match ch.lastBuildDate with
  | some e => env.jsDate e.text
  | none =>
    match ch.pubDate with
    | some e => env.jsDate e.text
    | none => env.now

/-- One RSS `<item>` to an article, `main.js` lines 128–164: title, then
the link (a `new URL` throw propagates), then the id from the raw texts,
then `pubDate` into both timestamps. -/
def rssArticle (env : Env) (item : RssItem) : Except Unit Article := do
  let title := item.title.map (sanitizedText env)
  let link ← (match item.link with
    | some e => do
        let h ← urlHref env e.text
        pure (some h)
    | none =>
      match item.guid with
      | some e => do
          let h ← urlHref env e.text
          pure (some h)
      | none => pure none)
  let id := (match item.guid with
    | some e => e.text
    | none =>
      match item.link with
      | some e => e.text
      | none => none)
  let stamp := (match truthyText item.pubDate with
    | some s => env.jsDate (some s)
    | none => env.now)
  pure { title := title, link := link, id := id, published := stamp, updated := stamp }

/-- The RSS branch of the normalizer, `main.js` lines 111–170, under the
feed-level try/catch of lines 108 and 239–241: the feed object is mutated
step by step and the first throw aborts the remaining steps, leaving the
feed with the fields set so far and the defaults elsewhere. -/
def normalizeRss (env : Env) (url : String) (ch : RssChannel) : NormFeed :=
  let f1 := { defNormFeed env.now with title := ch.title.map (sanitizedText env) }
  let f2 := { f1 with description := ch.description.map (sanitizedText env) }
  match rssLinkId env url ch.link with
  | .error _ => f2
  | .ok li =>
    let f3 := { f2 with link := some li, id := some li }
    match ch.item with
    | none => f3
    | some items =>
      match mapExcept (rssArticle env) items with
      | .error _ => f3
      | .ok arts => { f3 with articles := arts, updated := rssUpdated env ch }

/-- Atom feed-level link resolution, `main.js` lines 184–188.  A single
`<link>` is an object, so `.find` throws; with an array and no
`rel="self"` member, `find` returns `undefined` and the `["@_href"]`
access throws; `?? url` only covers a missing `href` attribute. -/
def atomFeedLink (env : Env) (url : String) : AtomFeedLinks → Except Unit String
  | .absent => .ok url
  | .single _ => .error ()
  | .many ns =>
    match ns.find? (fun l => decide (l.rel = some "self")) with
    | none => .error ()
    | some node => urlHref env (some (node.href.getD url))

/-- One Atom `<entry>` to an article, `main.js` lines 195–232.  Note the
timestamp block, lines 222–230: `published` falls back to
`entry.updated`, but the `updated` assignment is guarded by
`if (entry.published)` while reading `entry.updated["#text"]` — so a
present `published` with an absent `updated` throws, and an absent
`published` leaves `updated` at its default "now" even when
`entry.updated` is present.  (`sanitizeHtml(entry.title["#text"])`, line
206, has no `?? ""`; `sanitize-html` stringifies `undefined` to the empty
string, embedded via `getD ""`.) -/
def atomArticle (env : Env) (entry : AtomEntryNode) : Except Unit Article := do
  let title := entry.title.map (sanitizedText env)
  let link ← (match entry.link with
    | none => pure none
    | some ns =>
      let node := (match ns.find? (fun l => decide (l.rel = some "alternate")) with
        | some n => some n
        | none => ns.head?)
      match node with
      | none => pure none
      | some n => do
          let h ← urlHref env (match n.href with
            | some h => some h
            | none => n.text)
          pure (some h))
  let id := entry.id.bind (fun e => e.text)
  let published := (match entry.published with
    | some e => env.jsDate e.text
    | none =>
      match entry.updated with
      | some e => env.jsDate e.text
      | none => env.now)
  let updated ← (match entry.published with
    | some _ =>
      match entry.updated with
      | some e => pure (env.jsDate e.text)
      | none => Except.error ()
    | none => pure env.now)
  pure { title := title, link := link, id := id, published := published, updated := updated }

/-- The Atom branch of the normalizer, `main.js` lines 171–237, under the
feed-level try/catch. -/
def normalizeAtom (env : Env) (url : String) (a : AtomFeedDoc) : NormFeed :=
  let f1 := { defNormFeed env.now with title := a.title.map (sanitizedText env) }
  let f2 := { f1 with description := a.subtitle.map (sanitizedText env) }
  match atomFeedLink env url a.link with
  | .error _ => f2
  | .ok l =>
    let f4 := { f2 with link := some l, id := a.id.bind (fun e => e.text) }
    match a.entry with
    | none => f4
    | some entries =>
      match mapExcept (atomArticle env) entries with
      | .error _ => f4
      | .ok arts =>
        let upd := (match truthyText a.updated with
          | some s => env.jsDate (some s)
          | none => env.now)
        { f4 with articles := arts, updated := upd }

/-- Dispatch on the root element: a document whose root is neither `rss`
nor `feed` matches neither branch, so the default feed object of
`main.js` lines 99–106 is returned unchanged (and later merged). -/
def normalizeDoc (env : Env) (url : String) : ParsedXml → NormFeed
  | .rssDoc ch => normalizeRss env url ch
  | .atomDoc a => normalizeAtom env url a
  | .other => defNormFeed env.now

/-! ## Claim theorems: normalization error handling -/

theorem mapExcept_error_of_mem {α β : Type} (f : α → Except Unit β) (l : List α)
    (x : α) (hx : x ∈ l) (hf : f x = .error ()) :
    mapExcept f l = .error () := by
  induction l with
  | nil => cases hx
  | cons y t ih =>
    rcases List.mem_cons.mp hx with rfl | h
    · simp only [mapExcept, hf]
    · cases hy : f y with
      | error e => cases e; simp only [mapExcept, hy]
      | ok v => simp only [mapExcept, hy, ih h]

/-- A concrete environment: identity sanitizer, a URL parser accepting
only `"https://ok/"`, a `new Date(string)` stub, `now = 50`. -/
def envC : Env :=
  { sanitize := fun s => s,
    parseUrl := fun s => if s = "https://ok/" then some s else none,
    jsDate := fun _ => 111,
    now := 50 }

/-- An item whose `<link>` text fails URL parsing. -/
def itemBad : RssItem :=
  { title := none, link := some { text := some "::bad::" }, guid := none,
    pubDate := none }

/-- A perfectly well-formed item. -/
def itemGood : RssItem :=
  { title := some { text := some "good" },
    link := some { text := some "https://ok/" }, guid := none,
    pubDate := none }

/-- A channel holding the malformed item followed by the good one. -/
def chC : RssChannel :=
  { title := none, description := none, link := none, lastBuildDate := none,
    pubDate := none, item := some [itemBad, itemGood] }

/-- A channel holding only the good item. -/
def chGood : RssChannel :=
  { title := none, description := none, link := none, lastBuildDate := none,
    pubDate := none, item := some [itemGood] }

/-- C5 counterexample: with the malformed `itemBad` in the channel, the
normalized feed's article list is empty — the well-formed `itemGood` is
*not* emitted (though on its own it would be): the `new URL` throw inside
`rss.item.map` propagates to the feed-level catch. -/
theorem rss_item_isolation_counterexample :
    (normalizeRss envC "https://src/" chC).articles = [] ∧
    (normalizeRss envC "https://src/" chGood).articles =
      [{ title := some "good", link := some "https://ok/",
         id := some "https://ok/", published := 50, updated := 50 }] := by
  constructor
  · rfl
  · rfl

/-- C5 (corrected): failure isolation in RSS normalization is per-feed,
not per-item.  If any item of the channel throws while being mapped to an
article (e.g. its link/guid text fails URL parsing), the whole article
array computation is aborted: the feed is still emitted, keeping the
title, description and link/id resolved before the loop, but with an
empty `articles` list and its `updated` still at the default "now" — no
other item is emitted, and no article is ever individually dropped for
lacking an id and link. -/
theorem rss_item_failure_aborts_all (env : Env) (url : String) (ch : RssChannel)
    (items : List RssItem) (item : RssItem) (li : String)
    (hlink : rssLinkId env url ch.link = .ok li)
    (hi : ch.item = some items) (hmem : item ∈ items)
    (hbad : rssArticle env item = .error ()) :
    normalizeRss env url ch =
      { title := ch.title.map (sanitizedText env),
        description := ch.description.map (sanitizedText env),
        link := some li, id := some li, articles := [], updated := env.now } := by
  have herr := mapExcept_error_of_mem (rssArticle env) items item hmem hbad
  simp only [normalizeRss, hlink, hi, herr, defNormFeed]

/-- Witness for the C5 amended theorem at the concrete malformed channel. -/
theorem rss_item_failure_aborts_all_witness :
    normalizeRss envC "https://src/" chC =
      { title := none, description := none, link := some "https://src/",
        id := some "https://src/", articles := [], updated := 50 } :=
  rss_item_failure_aborts_all envC "https://src/" chC [itemBad, itemGood]
    itemBad "https://src/" (by rfl) (by rfl) (by decide) (by rfl)

/-- C6 counterexample: merging the feed normalized from an unknown-root
document into the empty store does *not* leave the store unchanged — it
inserts a default feed under the `undefined` key. -/
theorem unknown_root_counterexample :
    updateStore [] [normalizeDoc envC "https://src/" ParsedXml.other] ≠ [] := by
  decide

/-- C6 (corrected): a document whose root is neither `rss` nor `feed`
does not produce zero Feeds: the normalizer returns the default feed
object (all metadata `undefined`, empty article list, `updated` = now),
and the merge inserts it into the Store under the `undefined` id when no
such key exists (adding no articles); the Store is unchanged only when a
feed with the `undefined` id is already present. -/
theorem unknown_root_inserts_default (env : Env) (url : String) (s : Store) :
    normalizeDoc env url ParsedXml.other = defNormFeed env.now ∧
    mergeFeed s (defNormFeed env.now) =
      (match mapGet s none with
       | some _ => s
       | none => s ++ [(none,
          { title := none, description := none, link := none, id := none,
            articles := [], updated := env.now })]) := by
  refine ⟨rfl, ?_⟩
  cases hg : mapGet s none with
  | none =>
    rw [mergeFeed_of_get_none s _ hg]
    simp only [defNormFeed]
    rw [mapSet_append_of_get_none s none _ hg]
    rfl
  | some f =>
    rw [mergeFeed_of_get_some s _ f hg]
    exact mapSet_eq_of_get s none f hg

/-- An environment in which `new Date(string)` returns the string's
length, to make parsed timestamps distinguishable from "now" (= 0). -/
def envA : Env :=
  { sanitize := fun s => s,
    parseUrl := fun s => some s,
    jsDate := fun o => (match o with
      | some s => Int.ofNat s.length
      | none => -1),
    now := 0 }

/-- An Atom entry with `published` present and `updated` absent. -/
def entryPubOnly : AtomEntryNode :=
  { title := none, link := none, id := some { text := some "e1" },
    published := some { text := some "2006-01-02T15:04:05Z" },
    updated := none }

/-- An Atom entry with `published` absent and `updated` present. -/
def entryUpdOnly : AtomEntryNode :=
  { title := none, link := none, id := some { text := some "e2" },
    published := none,
    updated := some { text := some "2007-03-04T05:06:07Z" } }

/-- An Atom document holding only `entryPubOnly`. -/
def atomDocC : AtomFeedDoc :=
  { title := none, subtitle := none, link := AtomFeedLinks.absent,
    id := some { text := some "feedid" }, updated := none,
    entry := some [entryPubOnly] }

/-- C9 (code bug): the Atom timestamp fallback block, `main.js` lines
222–230, tests `entry.published` where it must test `entry.updated`.
Consequences, proved by evaluation: (1) an entry with `published` present
and `updated` absent throws (`entry.updated["#text"]` on `undefined`), so
the whole feed's article list is aborted — resolution does *not* succeed
for every present/absent combination; (2) an entry with `published`
absent and `updated` present gets `published` from `entry.updated` (here
the 20-character string stub parses to `20`) but its `updated` stays at
the default "now" (`0`) instead of mirroring `entry.updated`. -/
theorem atom_updated_guard_mismatch :
    atomArticle envA entryPubOnly = .error () ∧
    (normalizeAtom envA "https://src/" atomDocC).articles = [] ∧
    atomArticle envA entryUpdOnly =
      .ok { title := none, link := none, id := some "e2",
            published := 20, updated := 0 } := by
  refine ⟨rfl, rfl, rfl⟩

/-! ## The Go RSS-profile date resolver (`part_000` lines 80–116)

`parseRssDateOrNow` returns "now" for the empty string, strips everything
up to and including the first comma (then `strings.TrimSpace`), and tries
`time.Parse` with the layouts `"02 Jan 2006 15:04:05 MST"`,
`"02 Jan 2006 15:04:05 -0700"`, `"02 Jan 06 15:04:05 MST"` and
`"02 Jan 06 15:04:05 -0700"` in that order, returning the first success,
else "now".  We embed Go's `time.Parse` restricted to these layouts:
fixed two-digit day/minute/second, one-or-two-digit hour,
case-insensitive three-letter month names, four-digit years (first
character must be a digit), two-digit years with the 69 pivot, `-0700`
numeric offsets, and `MST` zone names via Go's `parseTimeZone` (the
`UTC` prefix, `ChST`/`MeST`, `GMT` with an optional signed hour suffix,
signed-offset names such as `+0000` with hours at most 24, and otherwise
3–5 upper-case letters where 4 or 5 must end in `T`), rejecting trailing
input and out-of-range day/hour/minute/second.  A zone *name* resolves to
offset 0 — a fabricated zone, except `GMT±h` which gets `h` hours — as
under Go's `time.Local` in a UTC environment, where `lookupName` knows
only the abbreviation "UTC", whose offset is 0 anyway.  Instants are
seconds since the Unix epoch. -/

/-- ASCII digit test (Go `isDigit`). -/
def isDigitC (c : Char) : Bool := '0' ≤ c && c ≤ '9'

/-- Numeric value of an ASCII digit. -/
def digitVal (c : Char) : Nat := c.toNat - '0'.toNat

/-- Go `getnum`: a two-digit number, or a single digit when not `fixed`. -/
def getnum (fixed : Bool) : List Char → Option (Nat × List Char)
  | [] => none
  | [c] => if isDigitC c && !fixed then some (digitVal c, []) else none
  | c1 :: c2 :: rest =>
    if isDigitC c1 then
      if isDigitC c2 then some (digitVal c1 * 10 + digitVal c2, rest)
      else if fixed then none
      else some (digitVal c1, c2 :: rest)
    else none

/-- Consume one expected literal character of the layout. -/
def litc (c : Char) : List Char → Option (List Char)
  | [] => none
  | x :: rest => if x = c then some rest else none

/-- Digits-only string to a number (`none` when any character is not a
digit; the empty string is 0 as in Go `leadingInt`). -/
def digitsToNat (s : List Char) : Option Nat :=
  if s.all isDigitC then some (s.foldl (fun n c => n * 10 + digitVal c) 0)
  else none

/-- Go `atoi`: an optional sign, then digits only. -/
def goAtoi (s : List Char) : Option Int :=
  match s with
  | '-' :: rest => (digitsToNat rest).map (fun n => -(n : Int))
  | '+' :: rest => (digitsToNat rest).map (fun n => (n : Int))
  | _ => (digitsToNat s).map (fun n => (n : Int))

/-- Lower-case an ASCII letter (Go's case-insensitive layout match). -/
def lowerC (c : Char) : Char :=
  if 'A' ≤ c && c ≤ 'Z' then Char.ofNat (c.toNat + 32) else c

/-- ASCII case-insensitive equality of equal-length strings. -/
def matchCI : List Char → List Char → Bool
  | [], [] => true
  | c :: cs, d :: ds => (lowerC c = lowerC d) && matchCI cs ds
  | _, _ => false

/-- The short month names of Go's reference layout. -/
def monthNames : List (List Char) :=
  (["Jan", "Feb", "Mar", "Apr", "May", "Jun",
    "Jul", "Aug", "Sep", "Oct", "Nov", "Dec"]).map String.data

/-- Go `lookup` over the month table, 1-based. -/
def lookupMonthFrom (s : List Char) (i : Nat) : List (List Char) → Option (Nat × List Char)
  | [] => none
  | name :: rest =>
    if matchCI (s.take name.length) name then some (i, s.drop name.length)
    else lookupMonthFrom s (i + 1) rest

/-- Month-name resolution: `Jan` ↦ 1, …, `Dec` ↦ 12. -/
def lookupMonth (s : List Char) : Option (Nat × List Char) :=
  lookupMonthFrom s 1 monthNames

/-- Go `stdLongYear` (`"2006"`): four characters, the first a digit,
`atoi`-converted. -/
def parseYear4 (s : List Char) : Option (Int × List Char) :=
  match s with
  | c1 :: c2 :: c3 :: c4 :: rest =>
    if isDigitC c1 then
      match goAtoi [c1, c2, c3, c4] with
      | some y => some (y, rest)
      | none => none
    else none
  | _ => none

/-- Go `stdYear` (`"06"`): two characters, `atoi`-converted, with the 69
pivot (≥ 69 ↦ 1900s, else 2000s). -/
def parseYear2 (s : List Char) : Option (Int × List Char) :=
  match s with
  | c1 :: c2 :: rest =>
    match goAtoi [c1, c2] with
    | some y => some ((if y ≥ 69 then 1900 + y else 2000 + y), rest)
    | none => none
  | _ => none

/-- Go `stdNumTZ` (`"-0700"`): a sign and two two-digit groups; the
offset in seconds. -/
def parseNumTZ (s : List Char) : Option (Int × List Char) :=
  match s with
  | sgn :: h1 :: h2 :: m1 :: m2 :: rest =>
    if sgn = '+' ∨ sgn = '-' then
      match goAtoi [h1, h2], goAtoi [m1, m2] with
      | some hr, some mm =>
        let off := (hr * 60 + mm) * 60
        some ((if sgn = '-' then -off else off), rest)
      | _, _ => none
    else none
  | _ => none

/-- Go `parseSignedOffset`: the length of a `±h…` token (0 when invalid
or when the number exceeds 24). -/
def parseSignedOffset (s : List Char) : Nat :=
  match s with
  | c :: rest =>
    if c = '+' ∨ c = '-' then
      let digs := rest.takeWhile isDigitC
      if digs = [] then 0
      else if digs.foldl (fun n d => n * 10 + digitVal d) 0 > 24 then 0
      else 1 + digs.length
    else 0
  | [] => 0

/-- Go `parseTimeZone`: how many leading characters of `s` form a zone
abbreviation. -/
def parseTimeZone (s : List Char) : Option Nat :=
  if s.length < 3 then none
  else if s.take 4 = "ChST".data ∨ s.take 4 = "MeST".data then some 4
  else if s.take 3 = "GMT".data then some (3 + parseSignedOffset (s.drop 3))
  else
    match s with
    | [] => none
    | c :: _ =>
      if c = '+' ∨ c = '-' then
        let n := parseSignedOffset s
        if n > 0 then some n else none
      else
        let nU := ((s.take 6).takeWhile (fun d => 'A' ≤ d && d ≤ 'Z')).length
        if nU = 3 then some 3
        else if nU = 4 then
          (if (match s.drop 3 with | 'T' :: _ => true | _ => false)
              || s.take 4 == "WITA".data
           then some 4 else none)
        else if nU = 5 then
          (if (match s.drop 4 with | 'T' :: _ => true | _ => false) = true
           then some 5 else none)
        else none

/-- Offset of a fabricated zone for an unknown abbreviation: 0, except
`GMT±h` names (Go computes `atoi(name[3:]) * 3600`). -/
def zoneNameOffset (name : List Char) : Int :=
  if name.length > 3 && name.take 3 = "GMT".data then
    3600 * ((goAtoi (name.drop 3)).getD 0)
  else 0

/-- The `stdTZ` parsing step: the `UTC` prefix special case, else
`parseTimeZone` with the fabricated-zone offset. -/
def parseNamedTZ (s : List Char) : Option (Int × List Char) :=
  if s.take 3 = "UTC".data then some (0, s.drop 3)
  else
    match parseTimeZone s with
    | none => none
    | some n => some (zoneNameOffset (s.take n), s.drop n)

/-- Gregorian leap year. -/
def isLeap (y : Int) : Bool := y % 4 = 0 && (y % 100 ≠ 0 || y % 400 = 0)

/-- Days in a month (Go `daysIn`). -/
def daysIn (m : Nat) (y : Int) : Nat :=
  if m = 2 then (if isLeap y then 29 else 28)
  else if m = 4 ∨ m = 6 ∨ m = 9 ∨ m = 11 then 30
  else 31

/-- Days from the Unix epoch to the civil date `y-m-d`. -/
def daysFromCivil (y : Int) (m d : Nat) : Int :=
  let y' : Int := if m ≤ 2 then y - 1 else y
  let era : Int := y' / 400
  let yoe : Int := y' - era * 400
  let mp : Nat := (m + 9) % 12
  let doy : Nat := (153 * mp + 2) / 5 + d - 1
  let doe : Int := yoe * 365 + yoe / 4 - yoe / 100 + (doy : Int)
  era * 146097 + doe - 719468

/-- Seconds since the Unix epoch of the parsed wall-clock fields, shifted
by the zone offset. -/
def toUnix (y : Int) (m d h mi sec : Nat) (off : Int) : Int :=
  daysFromCivil y m d * 86400 + ((h * 3600 + mi * 60 + sec : Nat) : Int) - off

/-- Which year directive the layout uses. -/
inductive YearFmt where
  | y4
  | y2
deriving DecidableEq, Repr

/-- Which zone directive the layout uses. -/
inductive ZoneFmt where
  | named
  | numeric
deriving DecidableEq, Repr

/-- Go `time.Parse` for the layout `"02 Jan <year> 15:04:05 <zone>"`,
where `<year>` is `2006` or `06` and `<zone>` is `MST` or `-0700`:
trailing input is rejected and day/hour/minute/second are range-checked. -/
def goTimeParse (yf : YearFmt) (zf : ZoneFmt) (raw : String) : Option Int := do
  let (d, s) ← getnum true raw.data
  let s ← litc ' ' s
  let (mon, s) ← lookupMonth s
  let s ← litc ' ' s
  let (y, s) ← (match yf with
    | YearFmt.y4 => parseYear4 s
    | YearFmt.y2 => parseYear2 s)
  let s ← litc ' ' s
  let (h, s) ← getnum false s
  let s ← litc ':' s
  let (mi, s) ← getnum true s
  let s ← litc ':' s
  let (sec, s) ← getnum true s
  let s ← litc ' ' s
  let (off, s) ← (match zf with
    | ZoneFmt.named => parseNamedTZ s
    | ZoneFmt.numeric => parseNumTZ s)
  if s = [] ∧ 1 ≤ d ∧ d ≤ daysIn mon y ∧ h < 24 ∧ mi < 60 ∧ sec < 60 then
    pure (toUnix y mon d h mi sec off)
  else none

/-- ASCII whitespace (the subset of `unicode.IsSpace` relevant here). -/
def isSpaceC (c : Char) : Bool :=
  c == ' ' || c == '\t' || c == '\n' || c == '\r'
    || c == Char.ofNat 11 || c == Char.ofNat 12

/-- Go `strings.TrimSpace` restricted to ASCII whitespace. -/
def trimSpaceAscii (s : List Char) : List Char :=
  ((s.dropWhile isSpaceC).reverse.dropWhile isSpaceC).reverse

/-- The remainder after the first comma, if any (`strings.IndexRune`). -/
def afterComma : List Char → Option (List Char)
  | [] => none
  | c :: rest => if c = ',' then some rest else afterComma rest

/-- `part_000` lines 86–90: drop everything before and including the
first comma and `TrimSpace` the remainder; without a comma the raw
string is untouched. -/
def stripWeekday (raw : String) : String :=
  match afterComma raw.data with
  | some rest => String.mk (trimSpaceAscii rest)
  | none => raw

/-- The ordered four-layout fallback chain of `parseRssDateOrNow`,
`part_000` lines 92–111: the first successful parse wins. -/
def rssTryFormats (s : String) : Option Int :=
  match goTimeParse YearFmt.y4 ZoneFmt.named s with
  | some t => some t
  | none =>
    match goTimeParse YearFmt.y4 ZoneFmt.numeric s with
    | some t => some t
    | none =>
      match goTimeParse YearFmt.y2 ZoneFmt.named s with
      | some t => some t
      | none => goTimeParse YearFmt.y2 ZoneFmt.numeric s

/-- `parseRssDateOrNow`, `part_000` lines 80–116: "now" for the empty
string, else the comma-stripped input through the four-layout chain,
"now" when all four fail. -/
def parseRssDateOrNow (now : Int) (raw : String) : Int :=
  if raw = "" then now
  else
    match rssTryFormats (stripWeekday raw) with
    | some t => t
    | none => now

/-- C7 (confirmed): the RSS-profile date resolver returns "now" for the
empty string; for any other input it strips the weekday prefix up to and
including the first comma and runs the fixed ordered four-pattern chain
(`rssTryFormats`: four-digit year with zone name, four-digit year with
numeric offset, two-digit year with zone name, two-digit year with
numeric offset), returning the first success and "now" when all four
fail; and the four example strings of spec §8 all parse to the same
instant, `2006-01-02 15:04:05 UTC` (Unix `1136214245`), while an
unparseable string yields "now". -/
theorem rss_date_resolution (now : Int) :
    parseRssDateOrNow now "" = now ∧
    parseRssDateOrNow now "Mon, 02 Jan 2006 15:04:05 GMT" = 1136214245 ∧
    parseRssDateOrNow now "02 Jan 2006 15:04:05 +0000" = 1136214245 ∧
    parseRssDateOrNow now "02 Jan 06 15:04:05 GMT" = 1136214245 ∧
    parseRssDateOrNow now "02 Jan 06 15:04:05 +0000" = 1136214245 ∧
    parseRssDateOrNow now "not a date" = now ∧
    (∀ raw : String, raw ≠ "" →
      parseRssDateOrNow now raw =
        (match rssTryFormats (stripWeekday raw) with
         | some t => t
         | none => now)) := by
  refine ⟨rfl, rfl, rfl, rfl, rfl, rfl, ?_⟩
  intro raw hraw
  simp only [parseRssDateOrNow, if_neg hraw]

/-- Witness for the C7 theorem's general fallback-chain clause at a
concrete nonempty string. -/
theorem rss_date_resolution_witness :
    parseRssDateOrNow 5 "02 Jan 2006 15:04:05 GMT" =
      (match rssTryFormats (stripWeekday "02 Jan 2006 15:04:05 GMT") with
       | some t => t
       | none => 5) :=
  (rss_date_resolution 5).2.2.2.2.2.2 "02 Jan 2006 15:04:05 GMT" (by decide)

end RssReader
